import Mathlib

/-!
Shallow embedding of libinsight (src/insight.cpp, src/insight/insight.hpp).

The library registers borrowed references to live variables in an ordered
slot table plus a semicolon-joined name buffer, and streams framed binary
snapshots of the referenced values over a byte sink.  The embedding below
models the class state of `Insight` as a record, each member function as a
pure state transformer returning the bytes it writes, and machine integers
as `Nat` with explicit `% 2^32` (resp. `% 256`) where the C code relies on
unsigned wraparound.  Pointers are modelled by storing, in each slot, the
byte content of the referenced memory; an explicit step relation
`Reachable` closes the public API (including external updates of the
referenced variables, which may change the bytes but not their number).
-/

namespace Insight

/-- Control characters from the `ctrl` constant in insight.cpp: SOH starts a
header frame, STX a data frame, ETX ends a text frame, EOT ends the
transmission. -/
def SOH : Nat := 1

/-- Start of text, the first byte of every data frame. -/
def STX : Nat := 2

/-- End of text, the terminator of the header frame. -/
def ETX : Nat := 3

/-- End of transmission, written when the stream is disabled. -/
def EOT : Nat := 4

/-- The eleven supported payload data types, `dataTypes_t` in insight.hpp. -/
inductive DataTypes where
  | dataType_bool
  | dataType_uint_8
  | dataType_uint_16
  | dataType_uint_32
  | dataType_uint_64
  | dataType_int_8
  | dataType_int_16
  | dataType_int_32
  | dataType_int_64
  | dataType_float
  | dataType_double
deriving DecidableEq

/-- Byte size of each data type: the `siz` column of the `PayloadSpec`
table in insight.cpp, i.e. `sizeof` of the corresponding C type. -/
def siz : DataTypes → Nat
  | .dataType_bool => 1
  | .dataType_uint_8 => 1
  | .dataType_uint_16 => 2
  | .dataType_uint_32 => 4
  | .dataType_uint_64 => 8
  | .dataType_int_8 => 1
  | .dataType_int_16 => 2
  | .dataType_int_32 => 4
  | .dataType_int_64 => 8
  | .dataType_float => 4
  | .dataType_double => 8

/-- Header tag of each data type as a list of ASCII byte values: the `hdr`
column of the `PayloadSpec` table in insight.cpp
(`b, u8, u16, u32, u64, i8, i16, i32, i64, f, d`). -/
def hdr : DataTypes → List Nat
  | .dataType_bool => [98]
  | .dataType_uint_8 => [117, 56]
  | .dataType_uint_16 => [117, 49, 54]
  | .dataType_uint_32 => [117, 51, 50]
  | .dataType_uint_64 => [117, 54, 52]
  | .dataType_int_8 => [105, 56]
  | .dataType_int_16 => [105, 49, 54]
  | .dataType_int_32 => [105, 51, 50]
  | .dataType_int_64 => [105, 54, 52]
  | .dataType_float => [102]
  | .dataType_double => [100]

/-- ASCII value of the semicolon separator used after every name and tag. -/
def semi : Nat := 59

/-- Modelled from the spec: the compile-time configuration constants come
from `insight/config.hpp`, which is not among the provided sources.  The
spec describes them only as fixed constants: the maximum slot count
(`INSIGHT_NUMVALUES`), the name-buffer byte capacity
(`INSIGHT_NAMEBUFFERSIZ`), the default task period
(`INSIGHT_TASKPERIOD_MS`) and the header preamble text
(`INSIGHT_BINARYINFO_FMT`, modelled as the list of bytes the preamble
printf emits).  They are therefore kept as parameters of the model. -/
structure Config where
  numValues : Nat
  nameBufferSiz : Nat
  taskPeriodMs : Nat
  binaryInfoFmt : List Nat
deriving DecidableEq

/-- The macro `INSIGHT_DATABUFFERSIZ` in insight.cpp: 2 header bytes plus
an assumed 8 bytes per registered value. -/
def dataBufferSiz (c : Config) : Nat :=
  2 + c.numValues * 8

/-- One entry of the `Payload` array: the registered type together with
the byte content of the memory the registered pointer refers to. -/
structure Slot where
  type : DataTypes
  mem : List Nat
deriving DecidableEq

/-- The member state of class `Insight` (insight.hpp).  `PayloadIdx` of
the C code is represented by `Payload.length`: the code only ever reads
array entries below `PayloadIdx` and appends at `PayloadIdx`, so the array
prefix in use is exactly the list.  `NameBuffer` is kept at byte level
(a list of length `INSIGHT_NAMEBUFFERSIZ`). -/
structure State where
  Enabled : Bool
  Pause : Bool
  LastTick : Nat
  Period : Nat
  NameBuffer : List Nat
  NameBufferPos : Nat
  Payload : List Slot
  PayloadSize : Nat
deriving DecidableEq

/-- Modulus of the 32-bit unsigned arithmetic used for timestamps, 2^32. -/
def U32 : Nat := 4294967296

/-- Wraparound-safe unsigned 32-bit subtraction `a - b` as performed on
`uint32_t` operands (for `a < U32` it equals the C result). -/
def sub32 (a b : Nat) : Nat :=
  (a + (U32 - b % U32)) % U32

/-- Reading a C string out of the name buffer: the bytes before the first
NUL, as `printf("%s", NameBuffer)` transmits them. -/
def cString (l : List Nat) : List Nat :=
  l.takeWhile (fun b => b != 0)

/-- Overwriting `bytes.length` bytes of `buf` starting at index `pos`,
the effect of `snprintf`/`memcpy` style writes into a fixed buffer.  All
writes performed by the code are within bounds (proved below), in which
case the length of `buf` is preserved. -/
def writeAt (buf : List Nat) (pos : Nat) (bytes : List Nat) : List Nat :=
  buf.take pos ++ bytes ++ buf.drop (pos + bytes.length)

/-- `Insight::reset`: clears the name buffer, the slot table and the
payload byte counter (2 bytes of frame bookkeeping remain accounted).
The enable/pause/timing members are not touched. -/
def reset (c : Config) (s : State) : State :=
  { s with
    NameBuffer := List.replicate c.nameBufferSiz 0
    NameBufferPos := 0
    Payload := []
    PayloadSize := 2 }

/-- The constructor `Insight::Insight`: disabled, unpaused, `LastTick`
zero, the configured default period, then `reset()`. -/
def initState (c : Config) : State :=
  reset c
    { Enabled := false
      Pause := false
      LastTick := 0
      Period := c.taskPeriodMs % U32
      NameBuffer := []
      NameBufferPos := 0
      Payload := []
      PayloadSize := 0 }

/-- `Insight::setPeriod`. -/
def setPeriod (s : State) (ms : Nat) : State :=
  { s with Period := ms % U32 }

/-- `Insight::pause`: stores the new pause state; when `sync` is set it
rewinds `LastTick` by two periods (in uint32 arithmetic) so that the next
`task` call finds the period expired. -/
def pause (s : State) (state sync : Bool) : State :=
  { s with
    Pause := state
    LastTick := if sync then sub32 s.LastTick (2 * s.Period) else s.LastTick }

/-- `Insight::add(void*, dataTypes_t, const char*)`.  Returns the new
state and the boolean result.  `mem` is the byte content of the memory
`ptr` points to.  The snprintf call `snprintf(&NameBuffer[pos], size,
"%s;", name)` is modelled byte for byte: it stores at most `size - 1`
characters of `name ++ ";"` followed by a terminating NUL and returns the
untruncated length `name.length + 1` (never negative for these plain
string arguments). -/
def add (c : Config) (s : State) (t : DataTypes) (mem : List Nat) (name : List Nat) :
    State × Bool :=
  if s.Enabled || s.Payload.length == c.numValues then
    (s, false)
  else
    let size := c.nameBufferSiz - s.NameBufferPos
    if size == 0 then
      (s, false)
    else if dataBufferSiz c < s.PayloadSize + siz t then
      (s, false)
    else
      let text := name ++ [semi]
      let written := text.length
      let buf := writeAt s.NameBuffer s.NameBufferPos (text.take (size - 1) ++ [0])
      if written < size then
        ({ s with
            NameBuffer := buf
            NameBufferPos := s.NameBufferPos + written
            Payload := s.Payload ++ [⟨t, mem⟩]
            PayloadSize := s.PayloadSize + siz t }, true)
      else
        ({ s with NameBuffer := writeAt buf s.NameBufferPos [0] }, false)

/-- The byte sequence of the header frame written by `Insight::enable`
when transmission is switched on: SOH, the preamble, the C string held in
the name buffer, the type tags each followed by a semicolon, ETX. -/
def headerFrame (c : Config) (s : State) : List Nat :=
  SOH :: (c.binaryInfoFmt ++ cString s.NameBuffer
    ++ (s.Payload.map (fun p => hdr p.type ++ [semi])).flatten ++ [ETX])

/-- `Insight::enable`: returns the new state, the boolean result, and the
bytes written to the stream. -/
def enable (c : Config) (s : State) (state sync : Bool) : State × Bool × List Nat :=
  if s.Enabled == state then
    (s, true, [])
  else if state then
    if s.Payload.length == 0 then
      (s, false, [])
    else
      ({ s with
          Enabled := true
          LastTick := if sync then sub32 s.LastTick (2 * s.Period) else s.LastTick },
        true, headerFrame c s)
  else
    ({ s with Enabled := false }, true, [EOT])

/-- Reading `n` bytes of memory starting at a slot pointer, the effect of
`memcpy(&buffer[idx], Payload[i].ptr, siz)`.  When the slot was registered
through one of the typed `add` overloads the referenced value has exactly
`n` bytes and this is the identity on `mem`. -/
def readBytes (mem : List Nat) (n : Nat) : List Nat :=
  (List.range n).map (fun i => mem.getD i 0)

/-- The byte sequence assembled by `Insight::transmit` in its local
buffer: STX, the payload length byte `PayloadSize - 2` (uint8 arithmetic),
then the raw bytes of each registered value in registration order. -/
def dataFrame (s : State) : List Nat :=
  STX :: (s.PayloadSize + 254) % 256
    :: (s.Payload.map (fun p => readBytes p.mem (siz p.type))).flatten

/-- `Insight::transmit`: fails (writes nothing) when not enabled,
otherwise writes exactly one data frame. -/
def transmit (s : State) : Option (List Nat) :=
  if s.Enabled then some (dataFrame s) else none

/-- `Insight::task`: the tick function.  Returns the new state and the
frame transmitted during this call, if any. -/
def task (s : State) (now : Nat) : State × Option (List Nat) :=
  if !s.Enabled || s.Pause then
    (s, none)
  else if s.Period < sub32 now s.LastTick then
    ({ s with LastTick := now % U32 }, transmit s)
  else
    (s, none)

/-- External update of a registered variable through the borrowed pointer
of slot `i`: the referenced storage keeps its size, only its bytes
change. -/
def setMem (s : State) (i : Nat) (mem : List Nat) : State :=
  match s.Payload.get? i with
  | some p => { s with Payload := s.Payload.set i { p with mem := mem } }
  | none => s

/-- States reachable through the public API from a freshly constructed
instance.  The `addStep` uses the typed public overloads
(`add(uint8_t*, const char*)` and friends), so the referenced memory has
exactly the byte size of the registered type and the C string `name`
contains no NUL byte.  `setMemStep` is the caller writing a new value to
a registered variable between calls. -/
inductive Reachable (c : Config) : State → Prop where
  | initStep : Reachable c (initState c)
  | resetStep {s : State} : Reachable c s → Reachable c (reset c s)
  | setPeriodStep {s : State} (ms : Nat) :
      Reachable c s → Reachable c (setPeriod s ms)
  | addStep {s : State} (t : DataTypes) (mem name : List Nat)
      (hm : mem.length = siz t) (hn : ∀ b ∈ name, b ≠ 0) :
      Reachable c s → Reachable c ((add c s t mem name).1)
  | enableStep {s : State} (st sy : Bool) :
      Reachable c s → Reachable c ((enable c s st sy).1)
  | pauseStep {s : State} (st sy : Bool) :
      Reachable c s → Reachable c (pause s st sy)
  | taskStep {s : State} (now : Nat) :
      Reachable c s → Reachable c ((task s now).1)
  | setMemStep {s : State} (i : Nat) (mem : List Nat) (p : Slot)
      (hp : s.Payload.get? i = some p) (hm : mem.length = siz p.type) :
      Reachable c s → Reachable c (setMem s i mem)

/-- The state invariant maintained by every reachable state: the payload
byte counter equals 2 plus the registered type sizes, the slot table is
within capacity, every slot's referenced memory has the byte size of its
type, and the name buffer is a NUL-terminated string of nonzero bytes of
length `NameBufferPos` inside a buffer of the configured capacity. -/
structure Inv (c : Config) (s : State) : Prop where
  payloadSize : s.PayloadSize = 2 + (s.Payload.map (fun p => siz p.type)).sum
  payloadLen : s.Payload.length ≤ c.numValues
  wellTyped : ∀ p ∈ s.Payload, p.mem.length = siz p.type
  bufLen : s.NameBuffer.length = c.nameBufferSiz
  posLe : s.NameBufferPos ≤ c.nameBufferSiz
  frontNZ : ∀ i < s.NameBufferPos, s.NameBuffer.getD i 0 ≠ 0
  atPos : s.NameBuffer.getD s.NameBufferPos 0 = 0
  tickLt : s.LastTick < U32
  periodLt : s.Period < U32


/-- Transcription of claim C3 over the model, for configurations obeying
the compile-time guard `INSIGHT_NUMVALUES * 8 <= UINT8_MAX` of
insight.cpp: a registration call fails exactly when one of the four
conditions of the spec holds (system enabled; slot table full; the
encoded `name + ";"` does not fit the remaining name-buffer space; the
cumulative payload byte total would pass 253), and moreover some
reachable input fails solely because of the 253-byte payload budget. -/
def C3Claim : Prop :=
  (∀ c s, c.numValues * 8 ≤ 255 → Reachable c s → ∀ t mem name,
      ((add c s t mem name).2 = false ↔
        (s.Enabled = true ∨ s.Payload.length = c.numValues ∨
          c.nameBufferSiz - s.NameBufferPos ≤ name.length + 1 ∨
          253 < s.PayloadSize - 2 + siz t))) ∧
  (∃ c s t mem name, c.numValues * 8 ≤ 255 ∧ Reachable c s ∧
    (add c s t mem name).2 = false ∧
    s.Enabled = false ∧ s.Payload.length ≠ c.numValues ∧
    name.length + 1 < c.nameBufferSiz - s.NameBufferPos ∧
    253 < s.PayloadSize - 2 + siz t)

/-- A small concrete configuration used by several witnesses: two slots,
a 16 byte name buffer, 100 ms period, a one byte preamble. -/
def wcfg : Config :=
  { numValues := 2, nameBufferSiz := 16, taskPeriodMs := 100, binaryInfoFmt := [70] }

/-- Witness state: one `uint8_t` value `x` registered. -/
def ws1 : State :=
  (add wcfg (initState wcfg) .dataType_uint_8 [7] [120]).1

/-- Witness state: `uint8_t x` and `float y` registered. -/
def ws2 : State :=
  (add wcfg ws1 .dataType_float [1, 2, 3, 4] [121]).1

/-- Witness state: `x` and `y` registered and transmission enabled. -/
def wEn : State :=
  (enable wcfg ws2 true false).1

/-- Witness state for the tick rollover: enabled, unpaused, with the last
transmission recorded 100 ticks before the 32-bit wraparound point. -/
def wRoll : State :=
  { Enabled := true, Pause := false, LastTick := 4294967196, Period := 100,
    NameBuffer := [], NameBufferPos := 0, Payload := [], PayloadSize := 2 }

/-- Configuration exhibiting the transmit buffer overflow: four slots are
allowed, so `add` admits up to `INSIGHT_DATABUFFERSIZ = 34` frame bytes,
exceeding the 32 byte local buffer of `Insight::transmit`. -/
def c2cfg : Config :=
  { numValues := 4, nameBufferSiz := 32, taskPeriodMs := 100, binaryInfoFmt := [] }

/-- An 8 byte value for a `uint64_t` slot. -/
def c2mem : List Nat := [1, 2, 3, 4, 5, 6, 7, 8]

/-- One, two, three, four registered `uint64_t` slots. -/
def c2s1 : State := (add c2cfg (initState c2cfg) .dataType_uint_64 c2mem [97]).1

/-- Second slot. -/
def c2s2 : State := (add c2cfg c2s1 .dataType_uint_64 c2mem [98]).1

/-- Third slot. -/
def c2s3 : State := (add c2cfg c2s2 .dataType_uint_64 c2mem [99]).1

/-- Fourth slot. -/
def c2s4 : State := (add c2cfg c2s3 .dataType_uint_64 c2mem [100]).1

/-- Four `uint64_t` slots registered and enabled: a data frame now has
`2 + 4 * 8 = 34` bytes. -/
def c2st : State := (enable c2cfg c2s4 true false).1

/-- Configuration for the sync counterexample: one slot, 8 byte names. -/
def c7cfg : Config :=
  { numValues := 1, nameBufferSiz := 8, taskPeriodMs := 100, binaryInfoFmt := [] }

/-- One `uint8_t` slot registered. -/
def c7s1 : State := (add c7cfg (initState c7cfg) .dataType_uint_8 [5] [120]).1

/-- Slot registered and enabled without sync. -/
def c7s2 : State := (enable c7cfg c7s1 true false).1

/-- Enabled state whose period was then set to 2^31 ms: the sync rewind
`LastTick -= 2 * Period` wraps to zero in uint32 arithmetic. -/
def c7pre : State := setPeriod c7s2 2147483648

/-- Configuration of the C9 scenario, parametric in the preamble text. -/
def c9cfg (fmt : List Nat) : Config :=
  { numValues := 2, nameBufferSiz := 16, taskPeriodMs := 100, binaryInfoFmt := fmt }

/-- C9 scenario: an 8-bit unsigned slot named `x` holding bytes `xb`. -/
def c9s1 (fmt xb : List Nat) : State :=
  (add (c9cfg fmt) (initState (c9cfg fmt)) .dataType_uint_8 xb [120]).1

/-- C9 scenario: additionally a float slot named `y` holding bytes `yb`. -/
def c9s2 (fmt xb yb : List Nat) : State :=
  (add (c9cfg fmt) (c9s1 fmt xb) .dataType_float yb [121]).1

/-- C9 scenario: the enable call after both registrations, yielding the
new state, the result and the header frame bytes. -/
def c9en (fmt xb yb : List Nat) : State × Bool × List Nat :=
  enable (c9cfg fmt) (c9s2 fmt xb yb) true false

/-- Every supported type is at most 8 bytes wide, the per-slot allowance
of `INSIGHT_DATABUFFERSIZ`. -/
theorem siz_le_8 (t : DataTypes) : siz t ≤ 8 := by
  cases t <;> decide

/-- Every supported type has at least one byte. -/
theorem siz_pos (t : DataTypes) : 1 ≤ siz t := by
  cases t <;> decide

/-- The registered type sizes sum to at most 8 bytes per slot. -/
theorem sum_sizes_le (l : List Slot) :
    (l.map (fun p => siz p.type)).sum ≤ 8 * l.length := by
  induction l with
  | nil => simp
  | cons p tl ih =>
      have h := siz_le_8 p.type
      simp only [List.map_cons, List.sum_cons, List.length_cons]
      omega

/-- Reading exactly the stored bytes of a well-sized memory area. -/
theorem readBytes_eq {mem : List Nat} {n : Nat} (h : mem.length = n) :
    readBytes mem n = mem := by
  subst h
  apply List.ext_getElem
  · simp [readBytes]
  · intro i h1 h2
    simp [readBytes, List.getD_eq_getElem?_getD, List.getElem?_eq_getElem h2]

/-- A `writeAt` that stays within the buffer preserves its length. -/
theorem writeAt_length {buf bytes : List Nat} {pos : Nat}
    (h : pos + bytes.length ≤ buf.length) :
    (writeAt buf pos bytes).length = buf.length := by
  simp only [writeAt, List.length_append, List.length_take, List.length_drop]
  omega

/-- A `writeAt` leaves the buffer bytes before the write position alone. -/
theorem writeAt_take {buf bytes : List Nat} {pos : Nat} (h : pos ≤ buf.length) :
    (writeAt buf pos bytes).take pos = buf.take pos := by
  have hl : (buf.take pos).length = pos := by
    simp [List.length_take]
    omega
  simp only [writeAt, List.append_assoc]
  rw [List.take_left' hl]

/-- Bytes before the write position are unchanged by `writeAt`. -/
theorem writeAt_getD_front {buf bytes : List Nat} {pos i : Nat}
    (hi : i < pos) (h : pos ≤ buf.length) :
    (writeAt buf pos bytes).getD i 0 = buf.getD i 0 := by
  have hl : (buf.take pos).length = pos := by
    simp [List.length_take]
    omega
  have h1 : (writeAt buf pos bytes).getD i 0 = (buf.take pos).getD i 0 := by
    simp only [writeAt, List.append_assoc]
    exact List.getD_append _ _ _ _ (by omega)
  rw [h1, List.getD_eq_getElem?_getD, List.getD_eq_getElem?_getD,
    List.getElem?_take]
  simp [hi]

/-- Bytes inside the written region of a `writeAt` come from `bytes`. -/
theorem writeAt_getD_mid {buf bytes : List Nat} {pos k : Nat}
    (hk : k < bytes.length) (h : pos ≤ buf.length) :
    (writeAt buf pos bytes).getD (pos + k) 0 = bytes.getD k 0 := by
  have hl : (buf.take pos).length = pos := by
    simp [List.length_take]
    omega
  have h1 : (writeAt buf pos bytes).getD (pos + k) 0
      = (bytes ++ buf.drop (pos + bytes.length)).getD k 0 := by
    simp only [writeAt, List.append_assoc]
    rw [List.getD_append_right _ _ _ _ (by omega), hl]
    congr 1
    omega
  rw [h1]
  exact List.getD_append _ _ _ _ hk

/-- The zero-filled buffer produced by `reset` reads as zero everywhere. -/
theorem getD_replicate_zero (n i : Nat) :
    (List.replicate n (0 : Nat)).getD i 0 = 0 := by
  induction n generalizing i with
  | zero => simp
  | succ m ih =>
      cases i with
      | zero => simp [List.replicate]
      | succ j => simp only [List.replicate, List.getD_cons_succ]; exact ih j

/-- The C string held in a buffer whose first `pos` bytes are nonzero and
whose byte at `pos` is NUL is exactly the first `pos` bytes. -/
theorem cString_eq_take {buf : List Nat} {pos : Nat}
    (h1 : ∀ i < pos, buf.getD i 0 ≠ 0) (h2 : buf.getD pos 0 = 0) :
    cString buf = buf.take pos := by
  induction buf generalizing pos with
  | nil => simp [cString]
  | cons b bs ih =>
      cases pos with
      | zero =>
          have hb : b = 0 := by simpa using h2
          simp [cString, List.takeWhile_cons, hb]
      | succ p =>
          have hb : b ≠ 0 := by
            have := h1 0 (Nat.succ_pos p)
            simpa using this
          have step : cString bs = bs.take p := by
            apply ih
            · intro i hi
              have := h1 (i + 1) (by omega)
              simpa using this
            · simpa using h2
          simp [cString, List.takeWhile_cons, hb] at step ⊢
          exact step


/-- The wraparound subtraction always yields a 32-bit value. -/
theorem sub32_lt (a b : Nat) : sub32 a b < U32 := by
  unfold sub32
  exact Nat.mod_lt _ (by norm_num [U32])

/-- Reading an in-range index of a list as `getD` yields the element. -/
theorem getD_eq_getElem {l : List Nat} {i : Nat} (h : i < l.length) :
    l.getD i 0 = l[i] := by
  simp [List.getD_eq_getElem?_getD, List.getElem?_eq_getElem h]

/-- No byte of the encoded text `name ++ ";"` is NUL when the name has no
NUL byte. -/
theorem text_getD_ne_zero {name : List Nat} (hn : ∀ b ∈ name, b ≠ 0) {k : Nat}
    (hk : k < (name ++ [semi]).length) : (name ++ [semi]).getD k 0 ≠ 0 := by
  by_cases h : k < name.length
  · rw [List.getD_append _ _ _ _ h, getD_eq_getElem h]
    exact hn _ (List.getElem_mem h)
  · have hk2 : k = name.length := by
      simp only [List.length_append, List.length_cons, List.length_nil] at hk
      omega
    subst hk2
    rw [List.getD_append_right _ _ _ _ le_rfl]
    simp [semi]

/-- The state invariant holds for a freshly constructed instance. -/
theorem inv_initState (c : Config) : Inv c (initState c) where
  payloadSize := by simp [initState, reset]
  payloadLen := by simp [initState, reset]
  wellTyped := by simp [initState, reset]
  bufLen := by simp [initState, reset]
  posLe := by simp [initState, reset]
  frontNZ := by simp [initState, reset]
  atPos := by simp [initState, reset, getD_replicate_zero]
  tickLt := by norm_num [initState, reset, U32]
  periodLt := by
    simp only [initState, reset]
    exact Nat.mod_lt _ (by norm_num [U32])

/-- `reset` re-establishes the invariant. -/
theorem inv_reset {c : Config} {s : State} (h : Inv c s) : Inv c (reset c s) where
  payloadSize := by simp [reset]
  payloadLen := by simp [reset]
  wellTyped := by simp [reset]
  bufLen := by simp [reset]
  posLe := by simp [reset]
  frontNZ := by simp [reset]
  atPos := by simp [reset, getD_replicate_zero]
  tickLt := h.tickLt
  periodLt := h.periodLt

/-- `setPeriod` preserves the invariant. -/
theorem inv_setPeriod {c : Config} {s : State} (h : Inv c s) (ms : Nat) :
    Inv c (setPeriod s ms) where
  payloadSize := h.payloadSize
  payloadLen := h.payloadLen
  wellTyped := h.wellTyped
  bufLen := h.bufLen
  posLe := h.posLe
  frontNZ := h.frontNZ
  atPos := h.atPos
  tickLt := h.tickLt
  periodLt := by
    simp only [setPeriod]
    exact Nat.mod_lt _ (by norm_num [U32])

/-- `pause` preserves the invariant. -/
theorem inv_pause {c : Config} {s : State} (h : Inv c s) (st sy : Bool) :
    Inv c (pause s st sy) where
  payloadSize := h.payloadSize
  payloadLen := h.payloadLen
  wellTyped := h.wellTyped
  bufLen := h.bufLen
  posLe := h.posLe
  frontNZ := h.frontNZ
  atPos := h.atPos
  tickLt := by
    simp only [pause]
    split
    · exact sub32_lt _ _
    · exact h.tickLt
  periodLt := h.periodLt

/-- `enable` preserves the invariant. -/
theorem inv_enable {c : Config} {s : State} (h : Inv c s) (st sy : Bool) :
    Inv c ((enable c s st sy).1) := by
  unfold enable
  split
  · exact h
  · split
    · split
      · exact h
      · exact
          { payloadSize := h.payloadSize
            payloadLen := h.payloadLen
            wellTyped := h.wellTyped
            bufLen := h.bufLen
            posLe := h.posLe
            frontNZ := h.frontNZ
            atPos := h.atPos
            tickLt := by
              show (if sy = true then sub32 s.LastTick (2 * s.Period) else s.LastTick) < U32
              split
              · exact sub32_lt _ _
              · exact h.tickLt
            periodLt := h.periodLt }
    · exact
        { payloadSize := h.payloadSize
          payloadLen := h.payloadLen
          wellTyped := h.wellTyped
          bufLen := h.bufLen
          posLe := h.posLe
          frontNZ := h.frontNZ
          atPos := h.atPos
          tickLt := h.tickLt
          periodLt := h.periodLt }

/-- `task` preserves the invariant. -/
theorem inv_task {c : Config} {s : State} (h : Inv c s) (now : Nat) :
    Inv c ((task s now).1) := by
  unfold task
  split
  · exact h
  · split
    · exact
        { payloadSize := h.payloadSize
          payloadLen := h.payloadLen
          wellTyped := h.wellTyped
          bufLen := h.bufLen
          posLe := h.posLe
          frontNZ := h.frontNZ
          atPos := h.atPos
          tickLt := Nat.mod_lt _ (by norm_num [U32])
          periodLt := h.periodLt }
    · exact h

/-- An external write to a registered variable preserves the invariant. -/
theorem inv_setMem {c : Config} {s : State} (h : Inv c s) (i : Nat)
    (mem : List Nat) (p : Slot) (hp : s.Payload.get? i = some p)
    (hm : mem.length = siz p.type) : Inv c (setMem s i mem) := by
  have hi : i < s.Payload.length := by
    by_contra hlt
    rw [List.get?_eq_getElem?, List.getElem?_eq_none (by omega)] at hp
    exact Option.noConfusion hp
  have hpel : s.Payload[i] = p := by
    rw [List.get?_eq_getElem?, List.getElem?_eq_getElem hi] at hp
    exact Option.some.inj hp
  unfold setMem
  rw [hp]
  refine ⟨?_, ?_, ?_, h.bufLen, h.posLe, h.frontNZ, h.atPos, h.tickLt, h.periodLt⟩
  · have hmap : (s.Payload.set i { p with mem := mem }).map (fun q => siz q.type)
        = s.Payload.map (fun q => siz q.type) := by
      apply List.ext_getElem (by simp)
      intro j h1 h2
      simp only [List.getElem_map, List.getElem_set]
      split
      · next hij => subst hij; rw [hpel]
      · rfl
    show s.PayloadSize
        = 2 + ((s.Payload.set i { p with mem := mem }).map (fun q => siz q.type)).sum
    rw [hmap]
    exact h.payloadSize
  · show (s.Payload.set i { p with mem := mem }).length ≤ c.numValues
    rw [List.length_set]
    exact h.payloadLen
  · intro q hq
    obtain ⟨j, hj, hq⟩ := List.mem_iff_getElem.mp hq
    rw [← hq, List.getElem_set]
    have hj2 : j < s.Payload.length := by simpa using hj
    split
    · exact hm
    · exact h.wellTyped _ (List.getElem_mem hj2)
/-- A buffer rewrite that keeps the length, the bytes below
`NameBufferPos` and the NUL at `NameBufferPos` preserves the invariant.
This covers the defensively re-terminated buffer of a failing `add`. -/
theorem inv_buffer_rewrite {c : Config} {s : State} (h : Inv c s) (nb : List Nat)
    (hlen : nb.length = c.nameBufferSiz)
    (hfront : ∀ i < s.NameBufferPos, nb.getD i 0 = s.NameBuffer.getD i 0)
    (hz : nb.getD s.NameBufferPos 0 = 0) :
    Inv c { s with NameBuffer := nb } where
  payloadSize := h.payloadSize
  payloadLen := h.payloadLen
  wellTyped := h.wellTyped
  bufLen := hlen
  posLe := h.posLe
  frontNZ := by
    intro i hi
    have hi2 : i < s.NameBufferPos := hi
    show nb.getD i 0 ≠ 0
    rw [hfront i hi2]
    exact h.frontNZ i hi2
  atPos := hz
  tickLt := h.tickLt
  periodLt := h.periodLt

/-- Invariant preservation for the successful branch of `add`: the name
and separator fit, so the text is appended to the name buffer, the slot
to the table, and the byte counters grow accordingly. -/
theorem inv_add_success {c : Config} {s : State} (h : Inv c s) (t : DataTypes)
    (mem name : List Nat) (hm : mem.length = siz t) (hn : ∀ b ∈ name, b ≠ 0)
    (hfull : s.Payload.length ≠ c.numValues)
    (hfit : (name ++ [semi]).length < c.nameBufferSiz - s.NameBufferPos) :
    Inv c { s with
      NameBuffer := writeAt s.NameBuffer s.NameBufferPos
        ((name ++ [semi]).take (c.nameBufferSiz - s.NameBufferPos - 1) ++ [0])
      NameBufferPos := s.NameBufferPos + (name ++ [semi]).length
      Payload := s.Payload ++ [⟨t, mem⟩]
      PayloadSize := s.PayloadSize + siz t } := by
  have hlen2 : (name ++ [semi]).length = name.length + 1 := by simp
  rw [hlen2] at hfit
  have htk : (name ++ [semi]).take (c.nameBufferSiz - s.NameBufferPos - 1)
      = name ++ [semi] := List.take_of_length_le (by rw [hlen2]; omega)
  have hble : s.NameBufferPos ≤ s.NameBuffer.length := by
    rw [h.bufLen]; exact h.posLe
  have hwb : s.NameBufferPos + ((name ++ [semi]) ++ [0]).length
      ≤ s.NameBuffer.length := by
    rw [h.bufLen]
    simp only [List.length_append, List.length_cons, List.length_nil]
    omega
  refine ⟨?_, ?_, ?_, ?_, ?_, ?_, ?_, h.tickLt, h.periodLt⟩
  · show s.PayloadSize + siz t
        = 2 + ((s.Payload ++ [(⟨t, mem⟩ : Slot)]).map (fun q => siz q.type)).sum
    rw [List.map_append, List.sum_append, h.payloadSize]
    simp only [List.map_cons, List.map_nil, List.sum_cons, List.sum_nil]
    omega
  · show (s.Payload ++ [(⟨t, mem⟩ : Slot)]).length ≤ c.numValues
    rw [List.length_append]
    have hpl := h.payloadLen
    simp only [List.length_cons, List.length_nil]
    omega
  · intro q hq
    rcases List.mem_append.mp hq with hq1 | hq2
    · exact h.wellTyped q hq1
    · rw [List.mem_singleton.mp hq2]
      exact hm
  · show (writeAt s.NameBuffer s.NameBufferPos
        ((name ++ [semi]).take (c.nameBufferSiz - s.NameBufferPos - 1) ++ [0])).length
        = c.nameBufferSiz
    rw [htk, writeAt_length hwb]
    exact h.bufLen
  · show s.NameBufferPos + (name ++ [semi]).length ≤ c.nameBufferSiz
    rw [hlen2]
    omega
  · intro i hi
    have hi2 : i < s.NameBufferPos + (name ++ [semi]).length := hi
    rw [hlen2] at hi2
    show (writeAt s.NameBuffer s.NameBufferPos
        ((name ++ [semi]).take (c.nameBufferSiz - s.NameBufferPos - 1) ++ [0])).getD
        i 0 ≠ 0
    rw [htk]
    by_cases hip : i < s.NameBufferPos
    · rw [writeAt_getD_front hip hble]
      exact h.frontNZ i hip
    · have hik : i = s.NameBufferPos + (i - s.NameBufferPos) := by omega
      have hk : i - s.NameBufferPos < ((name ++ [semi]) ++ [0]).length := by
        simp only [List.length_append, List.length_cons, List.length_nil]
        omega
      rw [hik, writeAt_getD_mid hk hble]
      have hkt : i - s.NameBufferPos < (name ++ [semi]).length := by
        rw [hlen2]
        omega
      rw [List.getD_append _ _ _ _ hkt]
      exact text_getD_ne_zero hn hkt
  · show (writeAt s.NameBuffer s.NameBufferPos
        ((name ++ [semi]).take (c.nameBufferSiz - s.NameBufferPos - 1) ++ [0])).getD
        (s.NameBufferPos + (name ++ [semi]).length) 0 = 0
    rw [htk]
    have hk : (name ++ [semi]).length < ((name ++ [semi]) ++ [0]).length := by
      simp
    rw [writeAt_getD_mid hk hble, List.getD_append_right _ _ _ _ le_rfl]
    simp

/-- Invariant preservation for the failing snprintf branch of `add`: the
truncated text plus the defensive re-termination leave a buffer whose
bytes below and at `NameBufferPos` are unchanged. -/
theorem inv_add_fail {c : Config} {s : State} (h : Inv c s) (name : List Nat)
    (hsz : c.nameBufferSiz - s.NameBufferPos ≠ 0) :
    Inv c { s with
      NameBuffer := writeAt
        (writeAt s.NameBuffer s.NameBufferPos
          ((name ++ [semi]).take (c.nameBufferSiz - s.NameBufferPos - 1) ++ [0]))
        s.NameBufferPos [0] } := by
  have hple := h.posLe
  have hble : s.NameBufferPos ≤ s.NameBuffer.length := by
    rw [h.bufLen]; exact h.posLe
  have hwb : s.NameBufferPos
      + ((name ++ [semi]).take (c.nameBufferSiz - s.NameBufferPos - 1) ++ [0]).length
      ≤ s.NameBuffer.length := by
    rw [h.bufLen]
    simp only [List.length_append, List.length_take, List.length_cons,
      List.length_nil]
    omega
  have hlen1 : (writeAt s.NameBuffer s.NameBufferPos
      ((name ++ [semi]).take (c.nameBufferSiz - s.NameBufferPos - 1) ++ [0])).length
      = c.nameBufferSiz := by
    rw [writeAt_length hwb]
    exact h.bufLen
  have hble1 : s.NameBufferPos
      ≤ (writeAt s.NameBuffer s.NameBufferPos
        ((name ++ [semi]).take (c.nameBufferSiz - s.NameBufferPos - 1) ++ [0])).length := by
    rw [hlen1]
    omega
  refine inv_buffer_rewrite h _ ?_ ?_ ?_
  · rw [writeAt_length (by rw [hlen1]; simp only [List.length_cons, List.length_nil]; omega)]
    exact hlen1
  · intro i hi
    rw [writeAt_getD_front hi hble1, writeAt_getD_front hi hble]
  · have h0 : (0 : Nat) < ([0] : List Nat).length := by simp
    have hmid := writeAt_getD_mid h0 hble1
    simpa using hmid

/-- `add` preserves the invariant when called with memory of the byte size
of the registered type and a NUL-free name (the guarantee of the typed
public overloads). -/
theorem inv_add {c : Config} {s : State} (h : Inv c s) (t : DataTypes)
    (mem name : List Nat) (hm : mem.length = siz t) (hn : ∀ b ∈ name, b ≠ 0) :
    Inv c ((add c s t mem name).1) := by
  simp only [add]
  split_ifs with h1 h2 h3 h4
  · exact h
  · exact h
  · exact h
  · refine inv_add_success h t mem name hm hn ?_ h4
    simp only [Bool.or_eq_true, beq_iff_eq, not_or] at h1
    exact h1.2
  · refine inv_add_fail h name ?_
    simpa using h2

/-- Every reachable state satisfies the invariant. -/
theorem inv_reachable {c : Config} {s : State} (h : Reachable c s) : Inv c s := by
  induction h with
  | initStep => exact inv_initState c
  | resetStep _ ih => exact inv_reset ih
  | setPeriodStep ms _ ih => exact inv_setPeriod ih ms
  | addStep t mem name hm hn _ ih => exact inv_add ih t mem name hm hn
  | enableStep st sy _ ih => exact inv_enable ih st sy
  | pauseStep st sy _ ih => exact inv_pause ih st sy
  | taskStep now _ ih => exact inv_task ih now
  | setMemStep i mem p hp hm _ ih => exact inv_setMem ih i mem p hp hm


/-- On any invariant-satisfying state whose slot table is not full, the
payload-budget check of `add` can never trigger: each slot contributes at
most 8 bytes, so the running total plus one more type size stays within
`INSIGHT_DATABUFFERSIZ = 2 + 8 * INSIGHT_NUMVALUES`. -/
theorem budget_ok {c : Config} {s : State} (h : Inv c s)
    (hfull : s.Payload.length ≠ c.numValues) (t : DataTypes) :
    s.PayloadSize + siz t ≤ dataBufferSiz c := by
  have h1 := h.payloadSize
  have h2 := sum_sizes_le s.Payload
  have h3 := h.payloadLen
  have h4 := siz_le_8 t
  unfold dataBufferSiz
  omega

/-- Exact failure condition of `add` on invariant-satisfying states: the
call fails exactly when the system is enabled, the slot table is full, or
`name`, its separator and the terminating NUL do not fit the remaining
name-buffer space.  The payload-budget check of the code is dead on such
states (see `budget_ok`). -/
theorem add_false_iff {c : Config} {s : State} (h : Inv c s) (t : DataTypes)
    (mem name : List Nat) :
    (add c s t mem name).2 = false ↔
      (s.Enabled = true ∨ s.Payload.length = c.numValues ∨
        c.nameBufferSiz - s.NameBufferPos ≤ name.length + 1) := by
  simp only [add]
  split_ifs with h1 h2 h3 h4
  · refine iff_of_true rfl ?_
    simp only [Bool.or_eq_true, beq_iff_eq] at h1
    rcases h1 with he | hfull
    · exact Or.inl he
    · exact Or.inr (Or.inl hfull)
  · refine iff_of_true rfl ?_
    right; right
    have hz : c.nameBufferSiz - s.NameBufferPos = 0 := by simpa using h2
    omega
  · exfalso
    simp only [Bool.or_eq_true, beq_iff_eq, not_or] at h1
    have := budget_ok h h1.2 t
    omega
  · refine iff_of_false (by simp) ?_
    simp only [Bool.or_eq_true, beq_iff_eq, not_or] at h1
    simp only [List.length_append, List.length_cons, List.length_nil] at h4
    push_neg
    refine ⟨?_, h1.2, by omega⟩
    simp [h1.1]
  · refine iff_of_true rfl ?_
    right; right
    simp only [not_lt, List.length_append, List.length_cons, List.length_nil] at h4
    omega

/-- Effect of shifting the last tick back by two periods in uint32
arithmetic, provided the true elapsed time plus two periods does not
itself wrap around. -/
theorem sub32_shift (L P now : Nat)
    (hb : sub32 now L + 2 * P < U32) :
    sub32 now (sub32 L (2 * P)) = sub32 now L + 2 * P := by
  simp only [sub32, U32] at hb ⊢
  omega

/-- `task` on an enabled, unpaused state with an expired period transmits
exactly one data frame and records the tick. -/
theorem task_transmits {s : State} {now : Nat} (hE : s.Enabled = true)
    (hP : s.Pause = false) (hc : s.Period < sub32 now s.LastTick) :
    task s now = ({ s with LastTick := now % U32 }, some (dataFrame s)) := by
  simp [task, transmit, hE, hP, hc]

/-- C1: for every reachable, enabled registry (under the compile-time
guard `INSIGHT_NUMVALUES * 8 ≤ UINT8_MAX`), `transmit()` writes exactly
one data frame: the STX byte, a single payload-length byte equal to the
sum `s1 + ... + sk` of the registered type sizes, then the verbatim
concatenation of each referenced value's in-memory bytes in registration
order, with no escaping or terminator. -/
theorem C1_data_frame_exact (c : Config) (s : State) (hr : Reachable c s)
    (hg : c.numValues * 8 ≤ 255) (hE : s.Enabled = true) :
    transmit s = some (STX :: (s.Payload.map (fun q => siz q.type)).sum
        :: (s.Payload.map Slot.mem).flatten)
    ∧ (s.Payload.map Slot.mem).flatten.length
        = (s.Payload.map (fun q => siz q.type)).sum
    ∧ (s.Payload.map (fun q => siz q.type)).sum ≤ 255 := by
  have hinv := inv_reachable hr
  have hsum2 := sum_sizes_le s.Payload
  have hlenN := hinv.payloadLen
  have hsum : (s.Payload.map (fun q => siz q.type)).sum ≤ 255 := by omega
  have hmaps : s.Payload.map (fun p => readBytes p.mem (siz p.type))
      = s.Payload.map Slot.mem :=
    List.map_congr_left (fun p hp => readBytes_eq (hinv.wellTyped p hp))
  have hlen : (s.Payload.map Slot.mem).flatten.length
      = (s.Payload.map (fun q => siz q.type)).sum := by
    rw [List.length_flatten, List.map_map]
    exact congrArg List.sum (List.map_congr_left (fun p hp => hinv.wellTyped p hp))
  refine ⟨?_, hlen, hsum⟩
  have hbyte : (s.PayloadSize + 254) % 256 = (s.Payload.map (fun q => siz q.type)).sum := by
    have := hinv.payloadSize
    omega
  simp only [transmit, dataFrame, hE, if_true]
  rw [hbyte, hmaps]

/-- Witness for C1: the concrete enabled two-slot registry `wEn`. -/
theorem C1_witness :
    transmit wEn = some (STX :: (wEn.Payload.map (fun q => siz q.type)).sum
        :: (wEn.Payload.map Slot.mem).flatten)
    ∧ (wEn.Payload.map Slot.mem).flatten.length
        = (wEn.Payload.map (fun q => siz q.type)).sum
    ∧ (wEn.Payload.map (fun q => siz q.type)).sum ≤ 255 :=
  C1_data_frame_exact wcfg wEn
    (Reachable.enableStep true false
      (Reachable.addStep .dataType_float [1, 2, 3, 4] [121] rfl (by decide)
        (Reachable.addStep .dataType_uint_8 [7] [120] rfl (by decide)
          Reachable.initStep)))
    (by decide) rfl

/-- C3 counterexample: the claim as stated is false, because its "in
particular" part fails — no reachable call can fail solely on the
253-byte payload budget.  Whenever the budget condition would hold, the
slot table is already full, so the budget is never the sole reason. -/
theorem C3_counterexample : ¬ C3Claim := by
  intro hcl
  obtain ⟨c, s, t, mem, name, hg, hr, hfail, hE, hfull, hfit, hpast⟩ := hcl.2
  have hiff := add_false_iff (inv_reachable hr) t mem name
  rcases hiff.mp hfail with he | hf | hnf
  · rw [hE] at he
    exact Bool.noConfusion he
  · exact hfull hf
  · omega

/-- C3 (amended): on reachable states a registration call fails exactly
when, in the code's check order: the system is enabled or the slot table
is full; the name buffer has no space left; the encoded `name + ";"` with
its terminating NUL does not fit the remaining space (the middle
condition is subsumed by the last).  The code's payload-budget check
compares against `2 + 8 * INSIGHT_NUMVALUES` (not 253) and can never
fire on a reachable state, so no input fails solely because of it. -/
theorem C3_amended_failure_policy (c : Config) (s : State) (hr : Reachable c s)
    (t : DataTypes) (mem name : List Nat) :
    (add c s t mem name).2 = false ↔
      (s.Enabled = true ∨ s.Payload.length = c.numValues ∨
        c.nameBufferSiz - s.NameBufferPos ≤ name.length + 1) :=
  add_false_iff (inv_reachable hr) t mem name

/-- Witness for C3 (amended) at the initial state: a one-byte name fits,
so the call succeeds and all three failure conditions are false. -/
theorem C3_witness :
    (add wcfg (initState wcfg) .dataType_uint_8 [7] [120]).2 = false ↔
      ((initState wcfg).Enabled = true
        ∨ (initState wcfg).Payload.length = wcfg.numValues
        ∨ wcfg.nameBufferSiz - (initState wcfg).NameBufferPos ≤ [120].length + 1) :=
  C3_amended_failure_policy wcfg (initState wcfg) Reachable.initStep
    .dataType_uint_8 [7] [120]

/-- C5: while the system is enabled, every `add` call fails and leaves
the state — slot sequence, name buffer, payload total — unchanged.
`Enabled = true` holds exactly from a successful `enable(true)` until the
next disable, so this is the frozen-registry interval of the claim. -/
theorem C5_registry_frozen (c : Config) (s : State) (hE : s.Enabled = true)
    (t : DataTypes) (mem name : List Nat) :
    add c s t mem name = (s, false) := by
  simp [add, hE]

/-- Witness for C5 on the concrete enabled state `wEn`. -/
theorem C5_witness : add wcfg wEn .dataType_uint_8 [9] [122] = (wEn, false) :=
  C5_registry_frozen wcfg wEn rfl .dataType_uint_8 [9] [122]

/-- C6: a direct `transmit()` call fails exactly when the system is not
enabled; when enabled it performs exactly one data-frame write regardless
of the paused flag (the frame does not depend on `Pause` at all), while a
set paused flag suppresses only the tick-driven path. -/
theorem C6_transmit_vs_pause (s : State) (b : Bool) (now : Nat) :
    (transmit s = none ↔ s.Enabled = false)
    ∧ (s.Enabled = true → transmit s = some (dataFrame s))
    ∧ transmit { s with Pause := b } = transmit s
    ∧ (s.Pause = true → task s now = (s, none)) := by
  refine ⟨?_, ?_, rfl, ?_⟩
  · cases hE : s.Enabled <;> simp [transmit, hE]
  · intro hE
    simp [transmit, hE]
  · intro hP
    simp [task, hP]

/-- Witness for C6: `wEn` transmits while enabled, also with the paused
flag set, and a paused state's tick does nothing. -/
theorem C6_witness :
    transmit wEn = some (dataFrame wEn)
    ∧ transmit { wEn with Pause := true } = transmit wEn
    ∧ task (pause wEn true false) 5 = (pause wEn true false, none) :=
  ⟨(C6_transmit_vs_pause wEn true 5).2.1 rfl,
    (C6_transmit_vs_pause wEn true 5).2.2.1,
    (C6_transmit_vs_pause (pause wEn true false) true 5).2.2.2 rfl⟩

/-- C10: calling `enable(false)` twice from the enabled state: the first
call succeeds, writes exactly one EOT byte and clears `Enabled`; the
second call succeeds, writes nothing and leaves the state unchanged. -/
theorem C10_disable_twice (c : Config) (s : State) (hE : s.Enabled = true) :
    enable c s false false = ({ s with Enabled := false }, true, [EOT])
    ∧ enable c { s with Enabled := false } false false
      = ({ s with Enabled := false }, true, []) := by
  constructor
  · simp [enable, hE]
  · rfl

/-- Witness for C10 on the concrete enabled state `wEn`. -/
theorem C10_witness :
    enable wcfg wEn false false = ({ wEn with Enabled := false }, true, [EOT])
    ∧ enable wcfg { wEn with Enabled := false } false false
      = ({ wEn with Enabled := false }, true, []) :=
  C10_disable_twice wcfg wEn rfl

/-- C4: one `tick(now)` call performs at most one transmission (its
output is a single optional frame); it transmits exactly when the system
is enabled, not paused, and the wraparound-safe 32-bit difference
`now - LastTick` exceeds the configured period — including across a
timestamp rollover — and on transmission `LastTick` is set to `now`. -/
theorem C4_tick_iff (s : State) (now : Nat) (hnow : now < U32) :
    ((task s now).2.isSome = true ↔
      (s.Enabled = true ∧ s.Pause = false ∧ s.Period < sub32 now s.LastTick))
    ∧ ((task s now).2.isSome = true →
        ((task s now).1.LastTick = now ∧ (task s now).2 = some (dataFrame s)))
    ∧ ((task s now).2.isSome = false → (task s now).1 = s) := by
  cases hE : s.Enabled with
  | false => simp [task, hE]
  | true =>
    cases hP : s.Pause with
    | true => simp [task, hE, hP]
    | false =>
      by_cases hc : s.Period < sub32 now s.LastTick
      · simp [task, transmit, hE, hP, hc, Nat.mod_eq_of_lt hnow]
      · simp [task, hE, hP, hc]

/-- Witness for C4 across a simulated rollover: the last tick was
recorded 100 ticks before the 32-bit wraparound point and `now` is 50,
so the elapsed time is 150 and a 100 ms period has expired. -/
theorem C4_witness :
    ((task wRoll 50).2.isSome = true ↔
      (wRoll.Enabled = true ∧ wRoll.Pause = false
        ∧ wRoll.Period < sub32 50 wRoll.LastTick))
    ∧ ((task wRoll 50).2.isSome = true →
        ((task wRoll 50).1.LastTick = 50
          ∧ (task wRoll 50).2 = some (dataFrame wRoll)))
    ∧ ((task wRoll 50).2.isSome = false → (task wRoll 50).1 = wRoll) :=
  C4_tick_iff wRoll 50 (by decide)

/-- C7 counterexample: with a period of 2^31 the sync rewind
`LastTick -= 2 * Period` is a no-op in uint32 arithmetic, so on the
reachable, enabled, non-empty state `c7pre` (with zero elapsed time,
i.e. less than one period) `pause(false, sync := true)` followed by one
tick does not transmit, contradicting the claim. -/
theorem C7_counterexample :
    Reachable c7cfg c7pre ∧ c7pre.Enabled = true ∧ c7pre.Payload ≠ []
    ∧ sub32 0 c7pre.LastTick < c7pre.Period
    ∧ (task (pause c7pre false true) 0).2 = none := by
  refine ⟨?_, by decide, by decide, by decide, by decide⟩
  exact Reachable.setPeriodStep 2147483648
    (Reachable.enableStep true false
      (Reachable.addStep .dataType_uint_8 [5] [120] rfl (by decide)
        Reachable.initStep))

/-- C7 (amended): `pause(false, sync := true)` followed by one tick
transmits — likewise `enable(true, sync := true)` from a disabled,
unpaused state — provided the rewound elapsed time does not wrap:
`(now - LastTick) + 2 * Period < 2^32` and `(now - LastTick) + Period`
is positive (both hold in the intended regime of periods far below
2^31 ms; the counterexample violates the first condition). -/
theorem C7_sync_transmits (c : Config) (s : State) (now : Nat)
    (hne : s.Payload ≠ [])
    (hb : sub32 now s.LastTick + 2 * s.Period < U32)
    (hp : 0 < sub32 now s.LastTick + s.Period) :
    (s.Enabled = true →
      (task (pause s false true) now).2 = some (dataFrame s))
    ∧ (s.Enabled = false → s.Pause = false →
      (task ((enable c s true true).1) now).2 = some (dataFrame s)) := by
  have key := sub32_shift s.LastTick s.Period now hb
  constructor
  · intro hE
    have hc : (pause s false true).Period
        < sub32 now (pause s false true).LastTick := by
      show s.Period
          < sub32 now (if true = true then sub32 s.LastTick (2 * s.Period) else s.LastTick)
      rw [if_pos rfl, key]
      omega
    have ht := @task_transmits (pause s false true) now hE rfl hc
    rw [ht]
    rfl
  · intro hE hPse
    have hlen : s.Payload.length ≠ 0 := fun hz => hne (List.length_eq_zero.mp hz)
    have hc2 : s.Period < sub32 now (sub32 s.LastTick (2 * s.Period)) := by
      rw [key]
      omega
    have hen : (enable c s true true).1
        = { s with Enabled := true, LastTick := sub32 s.LastTick (2 * s.Period) } := by
      simp [enable, hE, hlen]
    rw [hen,
      @task_transmits { s with Enabled := true, LastTick := sub32 s.LastTick (2 * s.Period) } now rfl hPse hc2]
    rfl

/-- Witness for C7 (amended): on `wEn` (period 100, no elapsed time) the
pause-path sync makes the very next tick transmit. -/
theorem C7_witness :
    (task (pause wEn false true) 0).2 = some (dataFrame wEn) :=
  (C7_sync_transmits wcfg wEn 0 (by decide) (by decide) (by decide)).1 rfl

/-- C8: a registration whose encoded name does not fit the remaining
name-buffer space fails and leaves no observable trace: no slot is
appended, the payload total and write position are unchanged, and the
name buffer still reads as the same NUL-terminated string ending at the
last successfully written position. -/
theorem C8_overflow_harmless (c : Config) (s : State) (hr : Reachable c s)
    (t : DataTypes) (mem name : List Nat)
    (hfit : c.nameBufferSiz - s.NameBufferPos ≤ name.length + 1) :
    (add c s t mem name).2 = false
    ∧ ((add c s t mem name).1).Payload = s.Payload
    ∧ ((add c s t mem name).1).PayloadSize = s.PayloadSize
    ∧ ((add c s t mem name).1).NameBufferPos = s.NameBufferPos
    ∧ cString ((add c s t mem name).1).NameBuffer
        = s.NameBuffer.take s.NameBufferPos
    ∧ cString s.NameBuffer = s.NameBuffer.take s.NameBufferPos := by
  have hinv := inv_reachable hr
  have hcs : cString s.NameBuffer = s.NameBuffer.take s.NameBufferPos :=
    cString_eq_take hinv.frontNZ hinv.atPos
  simp only [add]
  split_ifs with h1 h2 h3 h4
  · exact ⟨rfl, rfl, rfl, rfl, hcs, hcs⟩
  · exact ⟨rfl, rfl, rfl, rfl, hcs, hcs⟩
  · exact ⟨rfl, rfl, rfl, rfl, hcs, hcs⟩
  · exfalso
    simp only [List.length_append, List.length_cons, List.length_nil] at h4
    omega
  · refine ⟨rfl, rfl, rfl, rfl, ?_, hcs⟩
    have hsz : c.nameBufferSiz - s.NameBufferPos ≠ 0 := by simpa using h2
    have hble : s.NameBufferPos ≤ s.NameBuffer.length := by
      rw [hinv.bufLen]
      exact hinv.posLe
    have hwb : s.NameBufferPos
        + ((name ++ [semi]).take (c.nameBufferSiz - s.NameBufferPos - 1)
            ++ [0]).length
        ≤ s.NameBuffer.length := by
      rw [hinv.bufLen]
      simp only [List.length_append, List.length_take, List.length_cons,
        List.length_nil]
      have := hinv.posLe
      omega
    have hlen1 : (writeAt s.NameBuffer s.NameBufferPos
        ((name ++ [semi]).take (c.nameBufferSiz - s.NameBufferPos - 1)
          ++ [0])).length = c.nameBufferSiz := by
      rw [writeAt_length hwb]
      exact hinv.bufLen
    have hble1 : s.NameBufferPos ≤ (writeAt s.NameBuffer s.NameBufferPos
        ((name ++ [semi]).take (c.nameBufferSiz - s.NameBufferPos - 1)
          ++ [0])).length := by
      rw [hlen1]
      exact hinv.posLe
    have hfront : ∀ i < s.NameBufferPos,
        (writeAt (writeAt s.NameBuffer s.NameBufferPos
          ((name ++ [semi]).take (c.nameBufferSiz - s.NameBufferPos - 1) ++ [0]))
          s.NameBufferPos [0]).getD i 0 ≠ 0 := by
      intro i hi
      rw [writeAt_getD_front hi hble1, writeAt_getD_front hi hble]
      exact hinv.frontNZ i hi
    have hz : (writeAt (writeAt s.NameBuffer s.NameBufferPos
        ((name ++ [semi]).take (c.nameBufferSiz - s.NameBufferPos - 1) ++ [0]))
        s.NameBufferPos [0]).getD s.NameBufferPos 0 = 0 := by
      have h0 : (0 : Nat) < ([0] : List Nat).length := by simp
      have hmid := writeAt_getD_mid h0 hble1
      simpa using hmid
    exact (cString_eq_take hfront hz).trans
      ((writeAt_take hble1).trans (writeAt_take hble))

/-- Witness for C8: a 16-byte name cannot fit the 16-byte buffer of
`wcfg` (separator and NUL included), so the call fails harmlessly. -/
theorem C8_witness :
    (add wcfg (initState wcfg) .dataType_bool [1] (List.replicate 16 97)).2 = false
    ∧ ((add wcfg (initState wcfg) .dataType_bool [1]
        (List.replicate 16 97)).1).Payload = (initState wcfg).Payload
    ∧ ((add wcfg (initState wcfg) .dataType_bool [1]
        (List.replicate 16 97)).1).PayloadSize = (initState wcfg).PayloadSize
    ∧ ((add wcfg (initState wcfg) .dataType_bool [1]
        (List.replicate 16 97)).1).NameBufferPos = (initState wcfg).NameBufferPos
    ∧ cString ((add wcfg (initState wcfg) .dataType_bool [1]
        (List.replicate 16 97)).1).NameBuffer
        = (initState wcfg).NameBuffer.take (initState wcfg).NameBufferPos
    ∧ cString (initState wcfg).NameBuffer
        = (initState wcfg).NameBuffer.take (initState wcfg).NameBufferPos :=
  C8_overflow_harmless wcfg (initState wcfg) Reachable.initStep .dataType_bool [1]
    (List.replicate 16 97) (by decide)

/-- C2: on the reachable state `c2st` (INSIGHT_NUMVALUES = 4, four
`uint64_t` slots admitted by `add`, then enabled) a data frame has
`2 + 4 * 8 = 34` bytes, so `Insight::transmit` writes indices 32 and 33
of its 32-byte local buffer: the claimed in-bounds property fails.  The
`add` budget only enforces `INSIGHT_DATABUFFERSIZ = 2 + 8 * 4 = 34`. -/
theorem C2_buffer_overflow :
    Reachable c2cfg c2st ∧ c2st.Enabled = true
    ∧ (dataFrame c2st).length = 34 ∧ 32 < (dataFrame c2st).length := by
  refine ⟨?_, by decide, by decide, by decide⟩
  exact Reachable.enableStep true false
    (Reachable.addStep .dataType_uint_64 c2mem [100] (by decide) (by decide)
      (Reachable.addStep .dataType_uint_64 c2mem [99] (by decide) (by decide)
        (Reachable.addStep .dataType_uint_64 c2mem [98] (by decide) (by decide)
          (Reachable.addStep .dataType_uint_64 c2mem [97] (by decide) (by decide)
            Reachable.initStep))))

/-- C9: registering a `uint8` slot named `x` and a `float` slot named
`y`, then enabling, emits the header `SOH, preamble, "x;y;", "u8;f;",
ETX`; a following `transmit()` yields `STX, 0x05`, the one byte of `x`
and the four bytes of `y`. -/
theorem C9_scenario (fmt xb yb : List Nat) (hx : xb.length = 1)
    (hy : yb.length = 4) :
    (c9en fmt xb yb).2.1 = true
    ∧ (c9en fmt xb yb).2.2
        = SOH :: (fmt ++ [120, semi, 121, semi] ++ [117, 56, semi, 102, semi]
            ++ [ETX])
    ∧ transmit (c9en fmt xb yb).1 = some (STX :: 5 :: (xb ++ yb)) := by
  obtain ⟨a, rfl⟩ := List.length_eq_one.mp hx
  cases yb with
  | nil => simp at hy
  | cons b1 t1 =>
    cases t1 with
    | nil => simp at hy
    | cons b2 t2 =>
      cases t2 with
      | nil => simp at hy
      | cons b3 t3 =>
        cases t3 with
        | nil => simp at hy
        | cons b4 t4 =>
          cases t4 with
          | cons b5 t5 =>
            simp only [List.length_cons] at hy
            omega
          | nil =>
            refine ⟨rfl, rfl, ?_⟩
            have h1 : transmit (c9en fmt [a] [b1, b2, b3, b4]).1
                = some (dataFrame (c9en fmt [a] [b1, b2, b3, b4]).1) := rfl
            have hps : (c9en fmt [a] [b1, b2, b3, b4]).1.PayloadSize = 7 := rfl
            have hpl : (c9en fmt [a] [b1, b2, b3, b4]).1.Payload
                = [⟨.dataType_uint_8, [a]⟩, ⟨.dataType_float, [b1, b2, b3, b4]⟩] := rfl
            rw [h1]
            unfold dataFrame
            rw [hps, hpl]
            norm_num
            rfl

/-- Witness for C9 with preamble byte 70, `x` holding byte 7 and `y`
holding bytes 9, 8, 7, 6. -/
theorem C9_witness :
    (c9en [70] [7] [9, 8, 7, 6]).2.1 = true
    ∧ (c9en [70] [7] [9, 8, 7, 6]).2.2
        = SOH :: ([70] ++ [120, semi, 121, semi] ++ [117, 56, semi, 102, semi]
            ++ [ETX])
    ∧ transmit (c9en [70] [7] [9, 8, 7, 6]).1
        = some (STX :: 5 :: ([7] ++ [9, 8, 7, 6])) :=
  C9_scenario [70] [7] [9, 8, 7, 6] rfl rfl

end Insight
